import Mathlib

/-!
Verification development for the `annealing.metamodes` package
(`objectives.py`, `solution.py`, `problem.py`, `solver.py`).

The embedding is a shallow one:
* numpy integer tables (`permuted_modes`, `unpermuted_modes`) become
  `List (List Nat)`;
* the real-valued correlation tensor `big_corr` becomes a function
  `Nat → Nat → α` over an arbitrary linear ordered commutative ring `α`
  (the source never divides entries, so ring operations plus the order
  and absolute value cover everything it does with them);
* Python exceptions (`KeyError`, `TypeError`, `IndexError`,
  `AttributeError`) become an error type threaded through `Except`;
* all random draws (`rng.permutation`, `rng.integers`) are passed in as
  explicit parameters, with their guarantees (a draw of
  `rng.permutation(n)` is a permutation of `0..n-1`, a draw of
  `rng.integers(k)` lies in `[0, k)`) stated as hypotheses where needed.

A second, store-based model of `MetaModeSolution` (suffix `R`) tracks
numpy array identity explicitly, so that aliasing/independence claims
about `copy()` can be stated; all other claims use the value model.
-/

/-- Python exception values that the embedded code can raise. -/
inductive PyError where
  | keyError (msg : String)
  | typeError (msg : String)
  | indexError (msg : String)
  | attributeError (msg : String)
  deriving DecidableEq, Repr

instance {ε β : Type _} [DecidableEq ε] [DecidableEq β] :
    DecidableEq (Except ε β) := fun a b =>
  match a, b with
  | .ok x, .ok y => decidable_of_iff (x = y) (by simp)
  | .error e, .error f => decidable_of_iff (e = f) (by simp)
  | .ok _, .error _ => isFalse (by simp)
  | .error _, .ok _ => isFalse (by simp)

/-- Message of the `TypeError` raised by `None + <ndarray>` in
`MetaModeProblem.evaluate` when `permuted_modes` is unset. -/
def noneAddMsg : String := "unsupported operand types for NoneType and int"

/-- Message of the `IndexError` raised by numpy row assignment with an
index out of bounds. -/
def indexMsg : String := "index out of bounds"

/-- Message of the `AttributeError` raised by `None.copy()` in
`MetaModeSolution.copy` when `permuted_modes` is unset. -/
def attrMsg : String := "NoneType object has no attribute copy"

/-- Message of the `KeyError` raised by `Objective.func` for a member
with no associated function.  In the source, `undefined_msg` is the
f-string `"Objective not recognised. Choose from {self._names}"`; since
`_names` is a method that is never called, Python interpolates the repr
of the bound method, not the list of names. -/
def undefinedMsg : String :=
  "Objective not recognised. Choose from bound method Objective._names"

/-- An integer table (`np.ndarray` of shape rows x cols, dtype int). -/
abbrev Table := List (List Nat)

/-- Read entry `(a, i)` of a table (in-bounds under the well-formedness
hypotheses of every theorem that uses it). -/
def tget (t : Table) (a i : Nat) : Nat := (t.getD a []).getD i 0

/-- numpy basic-index resolution for axis length `L`: a nonnegative index
is used as is when `< L`, a negative index `i` with `-L ≤ i` wraps to
`L + i`, anything else raises `IndexError`. -/
def npResolveIndex (L : Nat) (i : Int) : Option Nat :=
  if 0 ≤ i ∧ i < (L : Int) then some i.toNat
  else if -(L : Int) ≤ i ∧ i < 0 then some ((L : Int) + i).toNat
  else none

/-- The `Objective` enum from `objectives.py`. -/
inductive Objective where
  | SUM
  | ABS_SUM
  | DYN_SUM
  deriving DecidableEq, Repr

/-- The member names of `Objective`, in declaration order
(`Objective.__members__.keys()`). -/
def objectiveNames : List String := ["SUM", "ABS_SUM", "DYN_SUM"]

/-- Enum lookup by name, `Objective[name]`: raises `KeyError(name)` when
`name` is not a member name. -/
def objectiveOfName (s : String) : Except PyError Objective :=
  if s = "SUM" then .ok .SUM
  else if s = "ABS_SUM" then .ok .ABS_SUM
  else if s = "DYN_SUM" then .ok .DYN_SUM
  else .error (.keyError s)

/-- Type of the objective functions
`score(big_corr, perm, n_modes, n_channels)`. -/
abbrev ObjFunc (α : Type _) := (Nat → Nat → α) → Table → Nat → Nat → α

/-- `sum_perms` from `objectives.py`: for each metamode slot `i`,
`second_pass[a, b] = big_corr[perm[a, i], perm[b, i]]`; the slot
contributes the sum of all its entries; finally
`n_modes * n_channels` is subtracted. -/
def sum_perms {α : Type _} [LinearOrderedCommRing α]
    (big_corr : Nat → Nat → α) (perm : Table)
    (n_modes n_channels : Nat) : α :=
  (∑ i ∈ Finset.range n_modes, ∑ a ∈ Finset.range n_channels,
      ∑ b ∈ Finset.range n_channels, big_corr (tget perm a i) (tget perm b i))
    - n_modes * n_channels

/-- `abs_sum_perms` from `objectives.py`: same as `sum_perms` but each
slot contributes the absolute value of its sub-matrix sum. -/
def abs_sum_perms {α : Type _} [LinearOrderedCommRing α]
    (big_corr : Nat → Nat → α) (perm : Table)
    (n_modes n_channels : Nat) : α :=
  (∑ i ∈ Finset.range n_modes,
      |∑ a ∈ Finset.range n_channels, ∑ b ∈ Finset.range n_channels,
        big_corr (tget perm a i) (tget perm b i)|)
    - n_modes * n_channels

/-- The `Objective.func` property: `SUM` and `ABS_SUM` map to their
functions; any other member (`DYN_SUM`) raises `KeyError`. -/
def Objective.func {α : Type _} [LinearOrderedCommRing α] :
    Objective → Except PyError (ObjFunc α)
  | .SUM => .ok sum_perms
  | .ABS_SUM => .ok abs_sum_perms
  | .DYN_SUM => .error (.keyError undefinedMsg)

/-- The identity mode table
`np.tile(np.arange(n_modes), (n_channels, 1))`. -/
def identityTable (n_channels n_modes : Nat) : Table :=
  List.replicate n_channels (List.range n_modes)

/-- `MetaModeSolution` (value model): the two tables plus the dims. -/
structure MetaModeSolution where
  n_modes : Nat
  n_channels : Nat
  unpermuted_modes : Table
  permuted_modes : Option Table
  deriving DecidableEq, Repr

namespace MetaModeSolution

/-- `MetaModeSolution.__init__`: with no permutation supplied,
`unpermuted_modes` is the identity tile; otherwise the supplied table is
used verbatim.  `permuted_modes` starts unset (`None`). -/
def init (n_modes n_channels : Nat) (permutation : Option Table) :
    MetaModeSolution :=
  { n_modes := n_modes
    n_channels := n_channels
    unpermuted_modes := permutation.getD (identityTable n_channels n_modes)
    permuted_modes := none }

/-- Shuffle one row by an index map `f` (the value of one
`rng.permutation(row)` draw): entry `j` of the result is entry `f j` of
`row`.  Any shuffle of a row is of this form for a bijective `f`. -/
def shuffleRow (f : Nat → Nat) (row : List Nat) : List Nat :=
  (List.range row.length).map (fun j => row.getD (f j) 0)

/-- Row-wise map with the row index (models
`np.apply_along_axis(·, axis=1, ·)` applied from row `k` on). -/
def mapRowsFrom (g : Nat → List Nat → List Nat) (k : Nat) :
    Table → Table
  | [] => []
  | r :: rs => g k r :: mapRowsFrom g (k + 1) rs

/-- `random_permutation`: sets `permuted_modes` by independently
shuffling each row of `unpermuted_modes`; the per-row index maps `σ c`
stand for the random draws. -/
def random_permutation (sol : MetaModeSolution) (σ : Nat → Nat → Nat) :
    MetaModeSolution :=
  { sol with
      permuted_modes :=
        some (mapRowsFrom (fun c row => shuffleRow (σ c) row) 0
          sol.unpermuted_modes) }

/-- `permute_one_channel`: sets `permuted_modes` to a copy of
`unpermuted_modes` and then assigns `newRow` (the `rng.permutation`
draw) to row `channel`, with numpy index semantics (negative indices
wrap, out-of-range indices raise `IndexError`). -/
def permute_one_channel (sol : MetaModeSolution) (channel : Int)
    (newRow : List Nat) : Except PyError MetaModeSolution :=
  match npResolveIndex sol.unpermuted_modes.length channel with
  | some k =>
      .ok { sol with
              permuted_modes := some (sol.unpermuted_modes.set k newRow) }
  | none => .error (.indexError indexMsg)

/-- `MetaModeSolution.step`: delegates to `permute_one_channel` with a
channel drawn by `rng.integers(n_channels)` (hence nonnegative). -/
def step (sol : MetaModeSolution) (channel : Nat) (newRow : List Nat) :
    Except PyError MetaModeSolution :=
  sol.permute_one_channel (Int.ofNat channel) newRow

/-- `MetaModeSolution.copy`: builds a new solution whose permutation
argument is `permuted_modes.copy()`; `None.copy()` raises
`AttributeError`.  Note the constructor stores the copied table as the
new `unpermuted_modes` and leaves the new `permuted_modes` unset. -/
def copy (sol : MetaModeSolution) : Except PyError MetaModeSolution :=
  match sol.permuted_modes with
  | none => .error (.attributeError attrMsg)
  | some t => .ok (init sol.n_modes sol.n_channels (some t))

end MetaModeSolution

/-- `MetaModeProblem`: the fixed tensor, the dims and the resolved
objective member. -/
structure MetaModeProblem (α : Type _) where
  correlation_matrix : Nat → Nat → α
  n_modes : Nat
  n_channels : Nat
  objective : Objective

/-- An objective selector: either a name string or an enum member
(`objective: str | Objective`). -/
inductive ObjSel where
  | str (s : String)
  | obj (o : Objective)

/-- `MetaModeProblem.__init__`: a string selector is resolved through
`Objective[...]` (which may raise `KeyError`); a member is stored as
is, with no further validation. -/
def problemInit {α : Type _} (big_corr : Nat → Nat → α)
    (n_modes n_channels : Nat) (objective : ObjSel) :
    Except PyError (MetaModeProblem α) := do
  let o ← match objective with
    | .str s => objectiveOfName s
    | .obj o => .ok o
  .ok { correlation_matrix := big_corr, n_modes := n_modes,
        n_channels := n_channels, objective := o }

/-- The global index table
`solution.permuted_modes + reindexer[:, None]` with
`reindexer[c] = c * n_modes`: raises `TypeError` when `permuted_modes`
is `None` (there is no validation step in the core; the failure comes
from the numeric expression itself).  Broadcasting assumes the table
has `n_channels` rows, which holds for every well-formed solution. -/
def addReindexer (pm : Option Table) (n_modes : Nat) :
    Except PyError Table :=
  match pm with
  | none => .error (.typeError noneAddMsg)
  | some t => .ok (t.mapIdx (fun c row => row.map (fun v => v + c * n_modes)))

namespace MetaModeProblem

/-- `MetaModeProblem.evaluate`: first resolves `self.objective.func`
(which raises `KeyError` for an unmapped member), then forms the global
index table and applies the objective function. -/
def evaluate {α : Type _} [LinearOrderedCommRing α]
    (P : MetaModeProblem α) (sol : MetaModeSolution) :
    Except PyError α := do
  let f ← P.objective.func
  let g ← addReindexer sol.permuted_modes P.n_modes
  .ok (f P.correlation_matrix g P.n_modes P.n_channels)

/-- `MetaModeProblem.generate`: with `g` the global index table, the
source computes `M = big_corr[g][:, :, g]` (a 4-d array with
`M[a, j, b, k] = big_corr[g a j, g b k]`), takes
`np.diagonal(M, axis1=1, axis2=3)` (shape
`(n_channels, n_channels, n_modes)`, entry
`D[a, b, l] = big_corr[g a l, g b l]`) and transposes
(`.T` reverses all three axes), giving shape
`(n_modes, n_channels, n_channels)` with entry
`T[i, x, y] = D[y, x, i] = big_corr[g y i, g x i]`. -/
def generate {α : Type _} (P : MetaModeProblem α)
    (sol : MetaModeSolution) :
    Except PyError (List (List (List α))) := do
  let g ← addReindexer sol.permuted_modes P.n_modes
  .ok ((List.range P.n_modes).map (fun i =>
        (List.range P.n_channels).map (fun x =>
          (List.range P.n_channels).map (fun y =>
            P.correlation_matrix (tget g y i) (tget g x i)))))

end MetaModeProblem

/-- `MetaModeSolver` state: the problem, the current best solution and
value, the iteration counter and the two history sequences. -/
structure MetaModeSolver (α : Type _) where
  problem : MetaModeProblem α
  best_solution : MetaModeSolution
  best_value : α
  iteration : Nat
  record : List (Nat × α)
  steps : List (List (List (List α)))

/-- `MetaModeSolver.__init__`: builds the problem, builds a fresh
solution, draws its initial random permutation (`σ` stands for the
draws) and evaluates it as `best_value`; history starts empty and the
iteration counter at 0. -/
def solverInit {α : Type _} [LinearOrderedCommRing α]
    (big_corr : Nat → Nat → α) (n_modes n_channels : Nat)
    (objective : ObjSel) (σ : Nat → Nat → Nat) :
    Except PyError (MetaModeSolver α) := do
  let P ← problemInit big_corr n_modes n_channels objective
  let sol := (MetaModeSolution.init n_modes n_channels none).random_permutation σ
  let v ← P.evaluate sol
  .ok { problem := P, best_solution := sol, best_value := v,
        iteration := 0, record := [], steps := [] }

/-- The candidate built by `MetaModeSolver.step`:
`self.best_solution.copy()` followed by `.step()` on the copy, with the
random draws (`channel`, `newRow`) passed in. -/
def candidate {α : Type _} (S : MetaModeSolver α) (channel : Nat)
    (newRow : List Nat) : Except PyError MetaModeSolution := do
  let c ← S.best_solution.copy
  c.step channel newRow

/-- `MetaModeSolver.step`: evaluates the candidate and accepts it
(returning `true`) exactly when its value is strictly greater than
`best_value`; otherwise the state is unchanged and `false` is
returned. -/
def solverStep {α : Type _} [LinearOrderedCommRing α]
    (S : MetaModeSolver α) (channel : Nat) (newRow : List Nat) :
    Except PyError (MetaModeSolver α × Bool) := do
  let sol ← candidate S channel newRow
  let value ← S.problem.evaluate sol
  if S.best_value < value then
    .ok ({ S with best_solution := sol, best_value := value }, true)
  else
    .ok (S, false)

/-- One iteration of the `solve` loop: take a step; on acceptance append
`(iteration, best_value)` to `record` and the generated tensor stack to
`steps`; increment the iteration counter in every case. -/
def solveStep {α : Type _} [LinearOrderedCommRing α]
    (S : MetaModeSolver α) (d : Nat × List Nat) :
    Except PyError (MetaModeSolver α) := do
  let (S1, accepted) ← solverStep S d.1 d.2
  let S2 ←
    if accepted then do
      let g ← S1.problem.generate S1.best_solution
      pure { S1 with
               record := S1.record ++ [(S1.iteration, S1.best_value)],
               steps := S1.steps ++ [g] }
    else
      pure S1
  pure { S2 with iteration := S2.iteration + 1 }

/-- `MetaModeSolver.solve(n_steps)`: run the loop once per element of
`draws` (one `(channel, newRow)` random draw per step, so
`draws.length = n_steps`).  The progress bar is observational only and
is not modelled. -/
def solve {α : Type _} [LinearOrderedCommRing α]
    (S : MetaModeSolver α) (draws : List (Nat × List Nat)) :
    Except PyError (MetaModeSolver α) :=
  match draws with
  | [] => .ok S
  | d :: ds => do
      let S1 ← solveStep S d
      solve S1 ds

/-- Iterated `MetaModeSolver.step` without the recording wrapper (an
arbitrary sequence of `step()` calls on a solver). -/
def runSteps {α : Type _} [LinearOrderedCommRing α]
    (S : MetaModeSolver α) (draws : List (Nat × List Nat)) :
    Except PyError (MetaModeSolver α) :=
  match draws with
  | [] => .ok S
  | d :: ds => do
      let (S1, _) ← solverStep S d.1 d.2
      runSteps S1 ds

/-- Satisfaction of a predicate by the success value of an `Except`
computation. -/
def ExceptSat {ε α : Type _} (e : Except ε α) (p : α → Prop) : Prop :=
  ∀ a, e = .ok a → p a

/-! ### Helper lemmas about tables and sums -/

/-- Sum of a function mapped over `List.range` as a `Finset.range` sum. -/
theorem sum_map_range {α : Type _} [AddCommMonoid α] (n : Nat) (f : Nat → α) :
    ((List.range n).map f).sum = ∑ i ∈ Finset.range n, f i := by
  induction n with
  | zero => simp
  | succ k ih => rw [List.range_succ, Finset.sum_range_succ]; simp [ih]

/-- Reading a list back entry by entry over its index range. -/
theorem range_map_getD {α : Type _} (l : List α) (d : α) :
    (List.range l.length).map (fun i => l.getD i d) = l := by
  induction l with
  | nil => simp
  | cons a t ih =>
      rw [List.length_cons, List.range_succ_eq_map, List.map_cons,
        List.map_map]
      have h : ((fun i => (a :: t).getD i d) ∘ Nat.succ)
          = (fun i => t.getD i d) := by
        funext i
        simp [List.getD_eq_getElem?_getD]
      rw [h, ih]
      rfl

/-- `tget` of the identity table. -/
theorem tget_identityTable {n_channels n_modes a i : Nat}
    (ha : a < n_channels) (hi : i < n_modes) :
    tget (identityTable n_channels n_modes) a i = i := by
  have h1 : (identityTable n_channels n_modes).getD a [] = List.range n_modes := by
    rw [identityTable, List.getD_eq_getElem?_getD, List.getElem?_replicate,
      if_pos ha]
    rfl
  unfold tget
  rw [h1, List.getD_eq_getElem?_getD, List.getElem?_range hi]
  rfl

/-- `tget` of the reindexed table (`t + reindexer[:, None]`). -/
theorem tget_addReindexer {t : Table} {n_modes a i : Nat}
    (ha : a < t.length) (hi : i < (t.getD a []).length) :
    tget (t.mapIdx (fun c row => row.map (fun v => v + c * n_modes))) a i
      = tget t a i + a * n_modes := by
  have hrow : t.getD a [] = t[a] := by
    rw [List.getD_eq_getElem?_getD, List.getElem?_eq_getElem ha]
    rfl
  have h1 : (t.mapIdx (fun c row => row.map (fun v => v + c * n_modes))).getD a []
      = (t[a]).map (fun v => v + a * n_modes) := by
    rw [List.getD_eq_getElem?_getD, List.getElem?_mapIdx,
      List.getElem?_eq_getElem ha]
    rfl
  have hi' : i < t[a].length := by
    rw [hrow] at hi
    exact hi
  unfold tget
  rw [h1, hrow, List.getD_eq_getElem?_getD, List.getElem?_map,
    List.getElem?_eq_getElem hi', List.getD_eq_getElem?_getD,
    List.getElem?_eq_getElem hi']
  rfl

/-- Every row of `permuted_modes`, whenever set, is a permutation of
`0..n_modes-1` (the spec's invariant). -/
def rowsArePerms (t : Table) (n_modes : Nat) : Prop :=
  ∀ r ∈ t, r.Perm (List.range n_modes)

instance (t : Table) (n_modes : Nat) : Decidable (rowsArePerms t n_modes) :=
  decidable_of_iff (∀ r ∈ t, r.Perm (List.range n_modes)) Iff.rfl

/-- Shuffling a row that is a permutation of `0..n-1` with a bijective
index map produces a permutation of `0..n-1` again. -/
theorem shuffleRow_perm {f : Nat → Nat} {row : List Nat} {n : Nat}
    (hrow : row.Perm (List.range n))
    (hf : ((List.range n).map f).Perm (List.range n)) :
    (MetaModeSolution.shuffleRow f row).Perm (List.range n) := by
  have hlen : row.length = n := by
    simpa using hrow.length_eq
  unfold MetaModeSolution.shuffleRow
  rw [hlen]
  have hcomp : (List.range n).map (fun j => row.getD (f j) 0)
      = ((List.range n).map f).map (fun k => row.getD k 0) := by
    simp [List.map_map, Function.comp]
  rw [hcomp]
  have h2 : (((List.range n).map f).map (fun k => row.getD k 0)).Perm
      ((List.range n).map (fun k => row.getD k 0)) := hf.map _
  have h3 : (List.range n).map (fun k => row.getD k 0) = row := by
    rw [← hlen]
    exact range_map_getD row 0
  exact h2.trans (by rw [h3]; exact hrow)

/-- Membership in `mapRowsFrom`: every row of the image comes from a row
of the source. -/
theorem mem_mapRowsFrom {g : Nat → List Nat → List Nat} {t : Table}
    {k : Nat} {r : List Nat}
    (h : r ∈ MetaModeSolution.mapRowsFrom g k t) :
    ∃ j s, s ∈ t ∧ r = g j s := by
  induction t generalizing k with
  | nil => simp [MetaModeSolution.mapRowsFrom] at h
  | cons s0 rest ih =>
      rw [MetaModeSolution.mapRowsFrom] at h
      rcases List.mem_cons.mp h with h0 | h1
      · exact ⟨k, s0, List.mem_cons_self _ _, h0⟩
      · obtain ⟨j, s, hs, hr⟩ := ih h1
        exact ⟨j, s, List.mem_cons_of_mem _ hs, hr⟩

/-- Row `a` of the identity table. -/
theorem identityTable_getD {n_channels n_modes a : Nat} (ha : a < n_channels) :
    (identityTable n_channels n_modes).getD a [] = List.range n_modes := by
  rw [identityTable, List.getD_eq_getElem?_getD, List.getElem?_replicate,
    if_pos ha]
  rfl

/-- The identity table has `n_channels` rows. -/
theorem identityTable_length (n_channels n_modes : Nat) :
    (identityTable n_channels n_modes).length = n_channels := by
  simp [identityTable]

/-- Shuffling every row with identity index maps changes nothing. -/
theorem mapRowsFrom_shuffle_eq_self (σ : Nat → Nat → Nat)
    (hσ : ∀ c j, σ c j = j) (t : Table) (k : Nat) :
    MetaModeSolution.mapRowsFrom
      (fun c row => MetaModeSolution.shuffleRow (σ c) row) k t = t := by
  induction t generalizing k with
  | nil => rfl
  | cons r rs ih =>
      rw [MetaModeSolution.mapRowsFrom]
      have hr : MetaModeSolution.shuffleRow (σ k) r = r := by
        unfold MetaModeSolution.shuffleRow
        have : (fun j => r.getD (σ k j) 0) = (fun j => r.getD j 0) := by
          funext j
          rw [hσ k j]
        rw [this]
        exact range_map_getD r 0
      rw [hr, ih]

/-- `sum_perms` on the reindexed identity table over a tensor with unit
diagonal and vanishing off-diagonal entries is exactly 0. -/
theorem sum_perms_identity_diag {α : Type _} [LinearOrderedCommRing α]
    (bc : Nat → Nat → α) (n_modes n_channels : Nat)
    (hdiag : ∀ x y, bc x y = if x = y then 1 else 0) :
    sum_perms bc
      ((identityTable n_channels n_modes).mapIdx
        (fun c row => row.map (fun v => v + c * n_modes)))
      n_modes n_channels = 0 := by
  unfold sum_perms
  have hterm : ∀ i ∈ Finset.range n_modes, ∀ a ∈ Finset.range n_channels,
      ∀ b ∈ Finset.range n_channels,
      bc (tget ((identityTable n_channels n_modes).mapIdx
            (fun c row => row.map (fun v => v + c * n_modes))) a i)
         (tget ((identityTable n_channels n_modes).mapIdx
            (fun c row => row.map (fun v => v + c * n_modes))) b i)
        = if a = b then 1 else 0 := by
    intro i hi a ha b hb
    rw [Finset.mem_range] at hi ha hb
    have hga : tget ((identityTable n_channels n_modes).mapIdx
        (fun c row => row.map (fun v => v + c * n_modes))) a i
        = i + a * n_modes := by
      rw [tget_addReindexer (by rw [identityTable_length]; exact ha)
        (by rw [identityTable_getD ha]; simpa using hi),
        tget_identityTable ha hi]
    have hgb : tget ((identityTable n_channels n_modes).mapIdx
        (fun c row => row.map (fun v => v + c * n_modes))) b i
        = i + b * n_modes := by
      rw [tget_addReindexer (by rw [identityTable_length]; exact hb)
        (by rw [identityTable_getD hb]; simpa using hi),
        tget_identityTable hb hi]
    rw [hga, hgb, hdiag]
    by_cases hab : a = b
    · subst hab
      simp
    · have hne : i + a * n_modes ≠ i + b * n_modes := by
        intro hcontra
        have hmul : a * n_modes = b * n_modes := by omega
        have hpos : 0 < n_modes := by omega
        exact hab (Nat.eq_of_mul_eq_mul_right hpos hmul)
      rw [if_neg hne, if_neg hab]
  have hsum : (∑ i ∈ Finset.range n_modes, ∑ a ∈ Finset.range n_channels,
      ∑ b ∈ Finset.range n_channels,
      bc (tget ((identityTable n_channels n_modes).mapIdx
            (fun c row => row.map (fun v => v + c * n_modes))) a i)
         (tget ((identityTable n_channels n_modes).mapIdx
            (fun c row => row.map (fun v => v + c * n_modes))) b i))
      = (n_modes : α) * (n_channels : α) := by
    rw [Finset.sum_congr rfl (fun i hi => Finset.sum_congr rfl (fun a ha =>
      Finset.sum_congr rfl (fun b hb => hterm i hi a ha b hb)))]
    have h1 : ∀ a ∈ Finset.range n_channels,
        (∑ b ∈ Finset.range n_channels, if a = b then (1 : α) else 0) = 1 := by
      intro a ha
      rw [Finset.sum_ite_eq (Finset.range n_channels) a (fun _ => (1 : α))]
      exact if_pos ha
    rw [Finset.sum_congr rfl (fun i _ => Finset.sum_congr rfl h1)]
    simp [Finset.sum_const, Finset.card_range, nsmul_eq_mul, mul_one]
  rw [hsum]
  ring

/-- `evaluate` with the `SUM` objective on a solution whose permutation
is set, as a `sum_perms` application on the reindexed table. -/
theorem evaluate_eq_sum_perms {α : Type _} [LinearOrderedCommRing α]
    (bc : Nat → Nat → α) (n_modes n_channels : Nat)
    (sol : MetaModeSolution) (t : Table)
    (hp : sol.permuted_modes = some t) :
    MetaModeProblem.evaluate
      { correlation_matrix := bc, n_modes := n_modes,
        n_channels := n_channels, objective := .SUM } sol
      = .ok (sum_perms bc
          (t.mapIdx (fun c row => row.map (fun v => v + c * n_modes)))
          n_modes n_channels) := by
  unfold MetaModeProblem.evaluate addReindexer
  rw [hp]
  rfl

/-- C9: for every `n_modes` and `n_channels`, the sum objective
evaluated on the identity permutation (obtained by shuffling the fresh
identity table with identity draws, so `permuted_modes` equals the
identity table) over a correlation tensor with unit diagonal and zero
off-diagonal entries returns exactly 0. -/
theorem claim_C9_sum_identity_diag_zero {α : Type _} [LinearOrderedCommRing α]
    (bc : Nat → Nat → α) (n_modes n_channels : Nat)
    (hdiag : ∀ x y, bc x y = if x = y then 1 else 0) :
    MetaModeProblem.evaluate
      { correlation_matrix := bc, n_modes := n_modes,
        n_channels := n_channels, objective := .SUM }
      ((MetaModeSolution.init n_modes n_channels none).random_permutation
        (fun _ j => j))
      = .ok 0 := by
  have hperm : ((MetaModeSolution.init n_modes n_channels none).random_permutation
      (fun _ j => j)).permuted_modes = some (identityTable n_channels n_modes) :=
    congrArg some (mapRowsFrom_shuffle_eq_self (fun _ j => j) (fun _ _ => rfl) _ 0)
  rw [evaluate_eq_sum_perms bc n_modes n_channels _ _ hperm,
    sum_perms_identity_diag bc n_modes n_channels hdiag]

/-- Witness for C9 at `n_modes = n_channels = 2` over `ℤ` with the
Kronecker-delta tensor. -/
theorem claim_C9_witness :
    MetaModeProblem.evaluate
      { correlation_matrix := fun x y => if x = y then (1 : ℤ) else 0,
        n_modes := 2, n_channels := 2, objective := .SUM }
      ((MetaModeSolution.init 2 2 none).random_permutation (fun _ j => j))
      = .ok 0 :=
  claim_C9_sum_identity_diag_zero (fun x y => if x = y then (1 : ℤ) else 0)
    2 2 (fun _ _ => rfl)

/-- C7: evaluating a solution whose `permuted_modes` was never set does
fail fast, but with the `TypeError` coming from the numeric expression
`None + reindexer` inside `evaluate`; the core performs no validation
of its own. -/
theorem claim_C7_evaluate_unset_type_error :
    MetaModeProblem.evaluate
      { correlation_matrix := fun _ _ => (1 : ℤ), n_modes := 2,
        n_channels := 2, objective := .SUM }
      (MetaModeSolution.init 2 2 none)
      = .error (.typeError noneAddMsg) := by
  decide

/-- C10: the `Objective` enum has a third member `DYN_SUM` with no
associated scoring function; constructing a problem with selector
`DYN_SUM` succeeds, every subsequent `evaluate` on it raises `KeyError`
when resolving the function, and constructing a solver with selector
`DYN_SUM` fails during construction because the initial candidate is
evaluated there. -/
theorem claim_C10_dyn_sum {α : Type _} [LinearOrderedCommRing α]
    (bc : Nat → Nat → α) (n_modes n_channels : Nat) :
    (Objective.func (α := α) .DYN_SUM = .error (.keyError undefinedMsg))
    ∧ problemInit bc n_modes n_channels (.str "DYN_SUM")
        = .ok { correlation_matrix := bc, n_modes := n_modes,
                n_channels := n_channels, objective := .DYN_SUM }
    ∧ (∀ sol : MetaModeSolution,
        MetaModeProblem.evaluate
          { correlation_matrix := bc, n_modes := n_modes,
            n_channels := n_channels, objective := .DYN_SUM } sol
          = .error (.keyError undefinedMsg))
    ∧ (∀ σ : Nat → Nat → Nat,
        solverInit bc n_modes n_channels (.str "DYN_SUM") σ
          = .error (.keyError undefinedMsg)) :=
  ⟨rfl, rfl, fun _ => rfl, fun _ => rfl⟩

/-- Bool test: `sub` occurs as a contiguous substring of `msg`. -/
def containsSeq (msg sub : String) : Bool :=
  msg.toList.tails.any (fun t => sub.toList.isPrefixOf t)

/-- Bool test: the message mentions every valid objective selector
(what the claim means by enumerating the valid choices). -/
def enumeratesChoices (msg : String) : Bool :=
  objectiveNames.all (fun nm => containsSeq msg nm)

/-- C5 counterexample: constructing a problem with the unrecognized
string selector FOO fails with `KeyError` whose message carries only the
selector and does not enumerate the valid choices; moreover a problem
constructed with the recognized member `DYN_SUM` is accepted at
construction and only fails when `evaluate` resolves the function, so
resolution happens during `evaluate`, not once at construction. -/
theorem claim_C5_counterexample :
    problemInit (fun _ _ => (1 : ℤ)) 2 2 (.str "FOO")
        = .error (.keyError "FOO")
    ∧ enumeratesChoices "FOO" = false
    ∧ problemInit (fun _ _ => (1 : ℤ)) 2 2 (.str "DYN_SUM")
        = .ok { correlation_matrix := fun _ _ => (1 : ℤ), n_modes := 2,
                n_channels := 2, objective := .DYN_SUM }
    ∧ MetaModeProblem.evaluate
        { correlation_matrix := fun _ _ => (1 : ℤ), n_modes := 2,
          n_channels := 2, objective := .DYN_SUM }
        (MetaModeSolution.init 2 2 none)
        = .error (.keyError undefinedMsg) :=
  ⟨rfl, by decide, rfl, rfl⟩

/-- C5 (amended): a string selector that is not a member name fails
immediately at construction with `KeyError` naming the selector itself
(not enumerating the valid choices); enum members — `DYN_SUM` included —
are stored without validation; and the objective function is resolved
from the member at each `evaluate` call, where an unmapped member raises
`KeyError`. -/
theorem claim_C5_selector_resolution {α : Type _} [LinearOrderedCommRing α]
    (bc : Nat → Nat → α) (n_modes n_channels : Nat) :
    (∀ s : String, s ∉ objectiveNames →
        problemInit bc n_modes n_channels (.str s) = .error (.keyError s))
    ∧ (∀ o : Objective,
        problemInit bc n_modes n_channels (.obj o)
          = .ok { correlation_matrix := bc, n_modes := n_modes,
                  n_channels := n_channels, objective := o })
    ∧ (∀ sol : MetaModeSolution,
        MetaModeProblem.evaluate
          { correlation_matrix := bc, n_modes := n_modes,
            n_channels := n_channels, objective := .DYN_SUM } sol
          = .error (.keyError undefinedMsg)) := by
  refine ⟨?_, fun o => rfl, fun sol => rfl⟩
  intro s hs
  simp only [objectiveNames, List.mem_cons, List.not_mem_nil, or_false,
    not_or] at hs
  obtain ⟨h1, h2, h3⟩ := hs
  unfold problemInit objectiveOfName
  simp only [if_neg h1, if_neg h2, if_neg h3]
  rfl

/-- Witness for C5 at the concrete selector FOO over `ℤ`. -/
theorem claim_C5_witness :
    "FOO" ∉ objectiveNames
    ∧ problemInit (fun _ _ => (2 : ℤ)) 3 2 (.str "FOO")
        = .error (.keyError "FOO") :=
  ⟨by decide,
   (claim_C5_selector_resolution (fun _ _ => (2 : ℤ)) 3 2).1 "FOO" (by decide)⟩

/-- C8 counterexample: on a well-formed solution with 2 channels,
`permute_one_channel(-1)` does not fail — numpy wraps the negative index
and row 1 is replaced by the fresh permutation. -/
theorem claim_C8_counterexample :
    MetaModeSolution.permute_one_channel
      ⟨2, 2, [[0, 1], [0, 1]], none⟩ (-1) [1, 0]
      = .ok ⟨2, 2, [[0, 1], [0, 1]], some [[0, 1], [1, 0]]⟩ := by
  decide

/-- C8 (amended): `permute_one_channel(channel)` raises `IndexError`
exactly for `channel ≥ n_channels` or `channel < -n_channels`; for
`channel` in `[0, n_channels)` it succeeds and replaces exactly row
`channel` of the copied baseline with the fresh permutation, and for
`channel` in `[-n_channels, 0)` it also succeeds, replacing row
`n_channels + channel` (numpy negative-index wrap-around). -/
theorem claim_C8_permute_one_channel_bounds (sol : MetaModeSolution)
    (channel : Int) (newRow : List Nat)
    (hlen : sol.unpermuted_modes.length = sol.n_channels) :
    ((channel < -(sol.n_channels : Int) ∨ (sol.n_channels : Int) ≤ channel) →
        sol.permute_one_channel channel newRow
          = .error (.indexError indexMsg))
    ∧ (0 ≤ channel → channel < (sol.n_channels : Int) →
        sol.permute_one_channel channel newRow
          = .ok { sol with
                    permuted_modes :=
                      some (sol.unpermuted_modes.set channel.toNat newRow) })
    ∧ (-(sol.n_channels : Int) ≤ channel → channel < 0 →
        sol.permute_one_channel channel newRow
          = .ok { sol with
                    permuted_modes :=
                      some (sol.unpermuted_modes.set
                        ((sol.n_channels : Int) + channel).toNat newRow) }) := by
  refine ⟨?_, ?_, ?_⟩
  · intro h
    unfold MetaModeSolution.permute_one_channel npResolveIndex
    rw [hlen, if_neg (by omega), if_neg (by omega)]
  · intro h0 h1
    unfold MetaModeSolution.permute_one_channel npResolveIndex
    rw [hlen, if_pos ⟨h0, h1⟩]
  · intro h0 h1
    unfold MetaModeSolution.permute_one_channel npResolveIndex
    rw [hlen, if_neg (by omega), if_pos ⟨h0, h1⟩]

/-- Witness for C8: out-of-range index 5 fails, in-range index 1
succeeds and replaces row 1. -/
theorem claim_C8_witness :
    MetaModeSolution.permute_one_channel
        ⟨2, 2, [[0, 1], [0, 1]], none⟩ 5 [1, 0]
      = .error (.indexError indexMsg)
    ∧ MetaModeSolution.permute_one_channel
        ⟨2, 2, [[0, 1], [0, 1]], none⟩ 1 [1, 0]
      = .ok ⟨2, 2, [[0, 1], [0, 1]], some [[0, 1], [1, 0]]⟩ :=
  ⟨(claim_C8_permute_one_channel_bounds
      ⟨2, 2, [[0, 1], [0, 1]], none⟩ 5 [1, 0] rfl).1 (Or.inr (by decide)),
   ((claim_C8_permute_one_channel_bounds
      ⟨2, 2, [[0, 1], [0, 1]], none⟩ 1 [1, 0] rfl).2.1 (by decide)
      (by decide)).trans (by decide)⟩

/-- Bind on a successful `Except` computation. -/
theorem ok_bind {ε β γ : Type _} (a : β) (f : β → Except ε γ) :
    (Except.ok (ε := ε) a >>= f) = f a := rfl

/-- Bind on a failed `Except` computation. -/
theorem error_bind {ε β γ : Type _} (e : ε) (f : β → Except ε γ) :
    (Except.error (α := β) e >>= f) = .error e := rfl

/-- Full characterization of a successful `MetaModeSolver.step`: the
candidate and its value exist, and the result is determined by the
strict comparison with `best_value`. -/
theorem solverStep_ok {α : Type _} [LinearOrderedCommRing α]
    (S : MetaModeSolver α) (channel : Nat) (newRow : List Nat)
    (r : MetaModeSolver α × Bool)
    (h : solverStep S channel newRow = .ok r) :
    ∃ sol v, candidate S channel newRow = .ok sol
      ∧ S.problem.evaluate sol = .ok v
      ∧ r = (if S.best_value < v
              then ({ S with best_solution := sol, best_value := v }, true)
              else (S, false)) := by
  unfold solverStep at h
  cases hc : candidate S channel newRow with
  | error e => rw [hc, error_bind] at h; cases h
  | ok sol =>
      rw [hc, ok_bind] at h
      cases he : S.problem.evaluate sol with
      | error e => rw [he, error_bind] at h; cases h
      | ok v =>
          rw [he, ok_bind] at h
          refine ⟨sol, v, rfl, he, ?_⟩
          by_cases hlt : S.best_value < v
          · rw [if_pos hlt] at h ⊢
            injection h with h'
            rw [h']
          · rw [if_neg hlt] at h ⊢
            injection h with h'
            rw [h']

/-- Monotonicity facts for one `MetaModeSolver.step`. -/
theorem solverStep_mono {α : Type _} [LinearOrderedCommRing α]
    (S : MetaModeSolver α) (channel : Nat) (newRow : List Nat)
    (r : MetaModeSolver α × Bool)
    (h : solverStep S channel newRow = .ok r) :
    S.best_value ≤ r.1.best_value
    ∧ (r.2 = false → r.1 = S)
    ∧ (r.2 = true → S.best_value < r.1.best_value) := by
  obtain ⟨sol, v, _, _, hr⟩ := solverStep_ok S channel newRow r h
  by_cases hlt : S.best_value < v
  · rw [if_pos hlt] at hr
    subst hr
    exact ⟨le_of_lt hlt, fun hf => by simp at hf, fun _ => hlt⟩
  · rw [if_neg hlt] at hr
    subst hr
    exact ⟨le_refl _, fun _ => rfl, fun ht => by simp at ht⟩

/-- `best_value` is non-decreasing over any sequence of steps. -/
theorem runSteps_mono {α : Type _} [LinearOrderedCommRing α] :
    ∀ (draws : List (Nat × List Nat)) (S S2 : MetaModeSolver α),
      runSteps S draws = .ok S2 → S.best_value ≤ S2.best_value := by
  intro draws
  induction draws with
  | nil =>
      intro S S2 h
      unfold runSteps at h
      injection h with h'
      rw [h']
  | cons d ds ih =>
      intro S S2 h
      unfold runSteps at h
      cases hc : solverStep S d.1 d.2 with
      | error e => rw [hc, error_bind] at h; cases h
      | ok r =>
          rw [hc, ok_bind] at h
          obtain ⟨S1, b⟩ := r
          exact le_trans (solverStep_mono S d.1 d.2 (S1, b) hc).1
            (ih S1 S2 h)

/-- C1: `Solver.step()` accepts a candidate exactly when its evaluated
value is strictly greater than `best_value` (ties rejected), in which
case it installs the candidate as `best_solution`/`best_value` and
returns true; otherwise it returns false and leaves the state
untouched; consequently `best_value` never decreases over any sequence
of `step()` calls. -/
theorem claim_C1_step_greedy_acceptance {α : Type _} [LinearOrderedCommRing α] :
    (∀ (S : MetaModeSolver α) (channel : Nat) (newRow : List Nat)
        (sol : MetaModeSolution) (v : α),
      candidate S channel newRow = .ok sol →
      S.problem.evaluate sol = .ok v →
      solverStep S channel newRow
        = .ok (if S.best_value < v
                then ({ S with best_solution := sol, best_value := v }, true)
                else (S, false)))
    ∧ (∀ (S : MetaModeSolver α) (channel : Nat) (newRow : List Nat),
        ExceptSat (solverStep S channel newRow)
          (fun r => S.best_value ≤ r.1.best_value
            ∧ (r.2 = false → r.1 = S)
            ∧ (r.2 = true → S.best_value < r.1.best_value)))
    ∧ (∀ (S : MetaModeSolver α) (draws : List (Nat × List Nat)),
        ExceptSat (runSteps S draws)
          (fun S2 => S.best_value ≤ S2.best_value)) := by
  refine ⟨?_, ?_, ?_⟩
  · intro S channel newRow sol v hc he
    unfold solverStep
    rw [hc, ok_bind, he, ok_bind]
    by_cases hlt : S.best_value < v
    · rw [if_pos hlt, if_pos hlt]
    · rw [if_neg hlt, if_neg hlt]
  · intro S channel newRow r hr
    exact solverStep_mono S channel newRow r hr
  · intro S draws S2 h
    exact runSteps_mono draws S S2 h

/-- Witness for C1: a concrete accepted step over `ℤ` (all-ones tensor,
candidate value 4 against previous best 0). -/
theorem claim_C1_witness :
    candidate
        (⟨⟨fun _ _ => (1 : ℤ), 2, 2, .SUM⟩,
          ⟨2, 2, [[0, 1], [0, 1]], some [[0, 1], [0, 1]]⟩, 0, 0, [], []⟩ :
          MetaModeSolver ℤ) 0 [1, 0]
      = .ok ⟨2, 2, [[0, 1], [0, 1]], some [[1, 0], [0, 1]]⟩
    ∧ MetaModeProblem.evaluate (⟨fun _ _ => (1 : ℤ), 2, 2, .SUM⟩ :
          MetaModeProblem ℤ)
        ⟨2, 2, [[0, 1], [0, 1]], some [[1, 0], [0, 1]]⟩
      = .ok 4
    ∧ solverStep
        (⟨⟨fun _ _ => (1 : ℤ), 2, 2, .SUM⟩,
          ⟨2, 2, [[0, 1], [0, 1]], some [[0, 1], [0, 1]]⟩, 0, 0, [], []⟩ :
          MetaModeSolver ℤ) 0 [1, 0]
      = .ok (if (0 : ℤ) < 4
              then (⟨⟨fun _ _ => (1 : ℤ), 2, 2, .SUM⟩,
                      ⟨2, 2, [[0, 1], [0, 1]], some [[1, 0], [0, 1]]⟩,
                      4, 0, [], []⟩, true)
              else (⟨⟨fun _ _ => (1 : ℤ), 2, 2, .SUM⟩,
                      ⟨2, 2, [[0, 1], [0, 1]], some [[0, 1], [0, 1]]⟩,
                      0, 0, [], []⟩, false)) :=
  ⟨by decide, by decide,
   (claim_C1_step_greedy_acceptance (α := ℤ)).1
     ⟨⟨fun _ _ => (1 : ℤ), 2, 2, .SUM⟩,
      ⟨2, 2, [[0, 1], [0, 1]], some [[0, 1], [0, 1]]⟩, 0, 0, [], []⟩
     0 [1, 0] ⟨2, 2, [[0, 1], [0, 1]], some [[1, 0], [0, 1]]⟩ 4
     (by decide) (by decide)⟩

/-- Witness for C10 at a concrete tensor over `ℤ`. -/
theorem claim_C10_witness :
    problemInit (fun _ _ => (3 : ℤ)) 2 2 (.str "DYN_SUM")
      = .ok { correlation_matrix := fun _ _ => (3 : ℤ), n_modes := 2,
              n_channels := 2, objective := .DYN_SUM } :=
  (claim_C10_dyn_sum (fun _ _ => (3 : ℤ)) 2 2).2.1

/-- `copy` on a solution whose permutation is set. -/
theorem copy_of_permuted_some (sol : MetaModeSolution) (p : Table)
    (hp : sol.permuted_modes = some p) :
    sol.copy = .ok (MetaModeSolution.init sol.n_modes sol.n_channels (some p)) := by
  unfold MetaModeSolution.copy
  rw [hp]

/-- Shape of a successful `permute_one_channel`: the result keeps every
field of the input except `permuted_modes`, which becomes the copied
baseline with row `k` (the resolved index) replaced. -/
theorem permute_one_channel_shape (sol sol2 : MetaModeSolution)
    (channel : Int) (newRow : List Nat)
    (h : sol.permute_one_channel channel newRow = .ok sol2) :
    ∃ k, npResolveIndex sol.unpermuted_modes.length channel = some k
      ∧ sol2 = { sol with
                   permuted_modes := some (sol.unpermuted_modes.set k newRow) } := by
  unfold MetaModeSolution.permute_one_channel at h
  cases hk : npResolveIndex sol.unpermuted_modes.length channel with
  | none => rw [hk] at h; cases h
  | some k =>
      rw [hk] at h
      injection h with h'
      exact ⟨k, rfl, h'.symm⟩

/-- Shape of a successful candidate construction in `Solver.step`: copy
of the accepted state (baseline reseeded from its `permuted_modes`),
then one row replaced. -/
theorem candidate_ok {α : Type _} (S : MetaModeSolver α)
    (channel : Nat) (newRow : List Nat) (p : Table) (sol : MetaModeSolution)
    (hp : S.best_solution.permuted_modes = some p)
    (hc : candidate S channel newRow = .ok sol) :
    ∃ k, npResolveIndex p.length (Int.ofNat channel) = some k
      ∧ sol = ⟨S.best_solution.n_modes, S.best_solution.n_channels, p,
               some (p.set k newRow)⟩ := by
  unfold candidate at hc
  rw [copy_of_permuted_some S.best_solution p hp, ok_bind] at hc
  unfold MetaModeSolution.step at hc
  obtain ⟨k, hk, hshape⟩ :=
    permute_one_channel_shape _ _ _ _ hc
  refine ⟨k, ?_, ?_⟩
  · simpa [MetaModeSolution.init] using hk
  · rw [hshape]
    rfl

/-- Rows of a successful `permute_one_channel` result are permutations
of `0..n_modes-1` whenever the baseline rows are and the fresh draw
is. -/
theorem permute_one_channel_rows (sol sol2 : MetaModeSolution)
    (channel : Int) (newRow : List Nat) (t : Table)
    (hrows : rowsArePerms sol.unpermuted_modes sol.n_modes)
    (hnew : newRow.Perm (List.range sol.n_modes))
    (hstep : sol.permute_one_channel channel newRow = .ok sol2)
    (hp2 : sol2.permuted_modes = some t) :
    rowsArePerms t sol.n_modes := by
  obtain ⟨k, _, hshape⟩ := permute_one_channel_shape _ _ _ _ hstep
  rw [hshape] at hp2
  have ht : t = sol.unpermuted_modes.set k newRow := (Option.some.inj hp2).symm
  subst ht
  intro r hr
  rcases List.mem_or_eq_of_mem_set hr with hmem | heq
  · exact hrows r hmem
  · rw [heq]
    exact hnew

/-- C3: every row of `permuted_modes`, whenever set, is a permutation
of `0..n_modes-1`: this holds for the identity table, is established by
`random_permutation` and `permute_one_channel`/`step` (given that the
random draws are permutations), and is preserved through the solver's
copy-then-mutate loop. -/
theorem claim_C3_rows_are_permutations {α : Type _} [LinearOrderedCommRing α] :
    (∀ n_modes n_channels, rowsArePerms (identityTable n_channels n_modes) n_modes)
    ∧ (∀ (sol : MetaModeSolution) (σ : Nat → Nat → Nat) (t : Table),
        rowsArePerms sol.unpermuted_modes sol.n_modes →
        (∀ c, ((List.range sol.n_modes).map (σ c)).Perm (List.range sol.n_modes)) →
        (sol.random_permutation σ).permuted_modes = some t →
        rowsArePerms t sol.n_modes)
    ∧ (∀ (sol sol2 : MetaModeSolution) (channel : Int) (newRow : List Nat)
        (t : Table),
        rowsArePerms sol.unpermuted_modes sol.n_modes →
        newRow.Perm (List.range sol.n_modes) →
        sol.permute_one_channel channel newRow = .ok sol2 →
        sol2.permuted_modes = some t →
        rowsArePerms t sol.n_modes)
    ∧ (∀ (sol sol2 : MetaModeSolution) (channel : Nat) (newRow : List Nat)
        (t : Table),
        rowsArePerms sol.unpermuted_modes sol.n_modes →
        newRow.Perm (List.range sol.n_modes) →
        sol.step channel newRow = .ok sol2 →
        sol2.permuted_modes = some t →
        rowsArePerms t sol.n_modes)
    ∧ (∀ (S : MetaModeSolver α) (channel : Nat) (newRow : List Nat) (p : Table),
        S.best_solution.permuted_modes = some p →
        rowsArePerms p S.best_solution.n_modes →
        newRow.Perm (List.range S.best_solution.n_modes) →
        ExceptSat (solverStep S channel newRow)
          (fun r => ∃ q, r.1.best_solution.permuted_modes = some q
            ∧ rowsArePerms q S.best_solution.n_modes)) := by
  refine ⟨?_, ?_, ?_, ?_, ?_⟩
  · intro n_modes n_channels r hr
    rw [List.eq_of_mem_replicate hr]
  · intro sol σ t hrows hσ hp
    have ht := Option.some.inj hp
    subst ht
    intro r hr
    obtain ⟨j, s, hs, hrj⟩ := mem_mapRowsFrom hr
    rw [hrj]
    exact shuffleRow_perm (hrows s hs) (hσ j)
  · intro sol sol2 channel newRow t hrows hnew hstep hp2
    exact permute_one_channel_rows sol sol2 channel newRow t hrows hnew hstep hp2
  · intro sol sol2 channel newRow t hrows hnew hstep hp2
    exact permute_one_channel_rows sol sol2 _ newRow t hrows hnew hstep hp2
  · intro S channel newRow p hp hrows hnew r hr
    obtain ⟨sol, v, hc, _, hshape⟩ := solverStep_ok S channel newRow r hr
    obtain ⟨k, _, hsol⟩ := candidate_ok S channel newRow p sol hp hc
    by_cases hlt : S.best_value < v
    · rw [if_pos hlt] at hshape
      refine ⟨p.set k newRow, ?_, ?_⟩
      · rw [hshape, hsol]
      · intro row hrow
        rcases List.mem_or_eq_of_mem_set hrow with hmem | heq
        · exact hrows row hmem
        · rw [heq]
          exact hnew
    · rw [if_neg hlt] at hshape
      rw [hshape]
      exact ⟨p, hp, hrows⟩

/-- Witness for C3: one concrete `permute_one_channel` call whose result
rows are permutations of `0..1`. -/
theorem claim_C3_witness :
    MetaModeSolution.permute_one_channel
        ⟨2, 2, [[0, 1], [1, 0]], none⟩ 0 [1, 0]
      = .ok ⟨2, 2, [[0, 1], [1, 0]], some [[1, 0], [1, 0]]⟩
    ∧ rowsArePerms [[1, 0], [1, 0]] 2 :=
  ⟨by decide,
   (claim_C3_rows_are_permutations (α := ℤ)).2.2.1
     ⟨2, 2, [[0, 1], [1, 0]], none⟩
     ⟨2, 2, [[0, 1], [1, 0]], some [[1, 0], [1, 0]]⟩
     0 [1, 0] [[1, 0], [1, 0]]
     (by decide) (by decide) (by decide) rfl⟩

/-- Sum of all entries of a stacked tensor (list of matrices). -/
def listSum3 {α : Type _} [AddCommMonoid α] (G : List (List (List α))) : α :=
  (G.map (fun m => (m.map (fun r => r.sum)).sum)).sum

/-- Entry `(i, a, b)` of a stacked tensor. -/
def g3get {α : Type _} [Zero α] (G : List (List (List α)))
    (i a b : Nat) : α :=
  ((G.getD i []).getD a []).getD b 0

/-- `getD` through a map over `List.range`. -/
theorem getD_map_range {β : Type _} {n i : Nat} (f : Nat → β) (d : β)
    (h : i < n) : ((List.range n).map f).getD i d = f i := by
  rw [List.getD_eq_getElem?_getD, List.getElem?_map, List.getElem?_range h]
  rfl

/-- `listSum3` of a tensor materialized over index ranges, as a triple
`Finset.range` sum. -/
theorem listSum3_ranges {α : Type _} [AddCommMonoid α]
    (n C : Nat) (f : Nat → Nat → Nat → α) :
    listSum3 ((List.range n).map (fun i =>
        (List.range C).map (fun x => (List.range C).map (fun y => f i x y))))
      = ∑ i ∈ Finset.range n, ∑ x ∈ Finset.range C,
          ∑ y ∈ Finset.range C, f i x y := by
  unfold listSum3
  rw [List.map_map, sum_map_range]
  refine Finset.sum_congr rfl (fun i _ => ?_)
  simp only [Function.comp]
  rw [List.map_map, sum_map_range]
  refine Finset.sum_congr rfl (fun x _ => ?_)
  simp only [Function.comp]
  rw [sum_map_range]

/-- C2: for a symmetric tensor and a well-formed solution, `generate`
returns the stack of `n_modes` cross-channel sub-matrices, shaped
`(n_modes, n_channels, n_channels)`, whose entry `(i, a, b)` is
`big_corr[permuted_modes[a][i] + a*n_modes, permuted_modes[b][i] + b*n_modes]`,
and `evaluate` with the sum objective equals the sum of all entries of
the generated stack minus `n_modes * n_channels`. -/
theorem claim_C2_generate_refinement {α : Type _} [LinearOrderedCommRing α]
    (bc : Nat → Nat → α) (n_modes n_channels : Nat)
    (sol : MetaModeSolution) (t : Table)
    (hsym : ∀ x y, bc x y = bc y x)
    (hp : sol.permuted_modes = some t)
    (hlen : t.length = n_channels)
    (hrows : ∀ r ∈ t, r.length = n_modes) :
    ∃ G, MetaModeProblem.generate
          (⟨bc, n_modes, n_channels, .SUM⟩ : MetaModeProblem α) sol = .ok G
      ∧ G.length = n_modes
      ∧ (∀ m ∈ G, m.length = n_channels ∧ ∀ r ∈ m, r.length = n_channels)
      ∧ (∀ i a b, i < n_modes → a < n_channels → b < n_channels →
          g3get G i a b
            = bc (tget t a i + a * n_modes) (tget t b i + b * n_modes))
      ∧ MetaModeProblem.evaluate
          (⟨bc, n_modes, n_channels, .SUM⟩ : MetaModeProblem α) sol
          = .ok (listSum3 G - n_modes * n_channels) := by
  have hrowlen : ∀ j, j < t.length → (t.getD j []).length = n_modes := by
    intro j hj
    have hj' : t.getD j [] = t[j] := by
      rw [List.getD_eq_getElem?_getD, List.getElem?_eq_getElem hj]
      rfl
    rw [hj']
    exact hrows _ (List.getElem_mem hj)
  refine ⟨(List.range n_modes).map (fun i =>
      (List.range n_channels).map (fun x =>
        (List.range n_channels).map (fun y =>
          bc (tget (t.mapIdx (fun c row => row.map (fun v => v + c * n_modes))) y i)
             (tget (t.mapIdx (fun c row => row.map (fun v => v + c * n_modes))) x i)))),
    ?_, by simp, ?_, ?_, ?_⟩
  · unfold MetaModeProblem.generate addReindexer
    rw [hp]
    rfl
  · intro m hm
    obtain ⟨i, _, rfl⟩ := List.mem_map.mp hm
    refine ⟨by simp, ?_⟩
    intro r hr
    obtain ⟨x, _, rfl⟩ := List.mem_map.mp hr
    simp
  · intro i a b hi ha hb
    unfold g3get
    rw [getD_map_range _ _ hi, getD_map_range _ _ ha, getD_map_range _ _ hb]
    rw [tget_addReindexer (by rw [hlen]; exact hb)
        (by rw [hrowlen b (by rw [hlen]; exact hb)]; exact hi),
      tget_addReindexer (by rw [hlen]; exact ha)
        (by rw [hrowlen a (by rw [hlen]; exact ha)]; exact hi)]
    exact hsym _ _
  · rw [evaluate_eq_sum_perms bc n_modes n_channels sol t hp]
    rw [listSum3_ranges n_modes n_channels
      (fun i x y =>
        bc (tget (t.mapIdx (fun c row => row.map (fun v => v + c * n_modes))) y i)
           (tget (t.mapIdx (fun c row => row.map (fun v => v + c * n_modes))) x i))]
    unfold sum_perms
    refine congrArg Except.ok (congrArg (fun z => z - (n_modes : α) * n_channels) ?_)
    exact Finset.sum_congr rfl (fun i _ => Finset.sum_comm)

/-- Witness for C2 at a concrete all-ones tensor over `ℤ`. -/
theorem claim_C2_witness :
    MetaModeProblem.generate
        (⟨fun _ _ => (1 : ℤ), 2, 2, .SUM⟩ : MetaModeProblem ℤ)
        ⟨2, 2, [[0, 1], [0, 1]], some [[0, 1], [0, 1]]⟩
      = .ok [[[1, 1], [1, 1]], [[1, 1], [1, 1]]]
    ∧ MetaModeProblem.evaluate
        (⟨fun _ _ => (1 : ℤ), 2, 2, .SUM⟩ : MetaModeProblem ℤ)
        ⟨2, 2, [[0, 1], [0, 1]], some [[0, 1], [0, 1]]⟩
      = .ok (listSum3 ([[[1, 1], [1, 1]], [[1, 1], [1, 1]]] :
          List (List (List ℤ))) - 2 * 2) := by
  obtain ⟨G, hG, _, _, _, hev⟩ :=
    claim_C2_generate_refinement (fun _ _ => (1 : ℤ)) 2 2
      ⟨2, 2, [[0, 1], [0, 1]], some [[0, 1], [0, 1]]⟩ [[0, 1], [0, 1]]
      (fun _ _ => rfl) rfl rfl (by decide)
  have hG0 : MetaModeProblem.generate
      (⟨fun _ _ => (1 : ℤ), 2, 2, .SUM⟩ : MetaModeProblem ℤ)
      ⟨2, 2, [[0, 1], [0, 1]], some [[0, 1], [0, 1]]⟩
      = .ok [[[1, 1], [1, 1]], [[1, 1], [1, 1]]] := by decide
  have hGeq : G = [[[1, 1], [1, 1]], [[1, 1], [1, 1]]] :=
    Except.ok.inj (hG.symm.trans hG0)
  rw [hGeq] at hev
  exact ⟨hG0, hev.trans (by decide)⟩

/-- An accepted `solve` iteration: `(iteration, best_value)` is appended
to `record`, the generated stack to `steps`, and the counter is
incremented. -/
theorem solveStep_accept {α : Type _} [LinearOrderedCommRing α]
    (S : MetaModeSolver α) (d : Nat × List Nat) (S1 : MetaModeSolver α)
    (g : List (List (List α)))
    (h1 : solverStep S d.1 d.2 = .ok (S1, true))
    (h2 : S1.problem.generate S1.best_solution = .ok g) :
    solveStep S d = .ok { S1 with
        record := S1.record ++ [(S1.iteration, S1.best_value)],
        steps := S1.steps ++ [g],
        iteration := S1.iteration + 1 } := by
  unfold solveStep
  rw [h1, ok_bind]
  simp only []
  rw [if_pos trivial, h2, ok_bind]
  rfl

/-- A rejected `solve` iteration: only the counter is incremented. -/
theorem solveStep_reject {α : Type _} [LinearOrderedCommRing α]
    (S : MetaModeSolver α) (d : Nat × List Nat) (S1 : MetaModeSolver α)
    (h1 : solverStep S d.1 d.2 = .ok (S1, false)) :
    solveStep S d = .ok { S1 with iteration := S1.iteration + 1 } := by
  unfold solveStep
  rw [h1, ok_bind]
  simp only []
  rfl

/-- History bookkeeping of one `solve` iteration: the counter always
increments, and either both histories are unchanged or both receive
exactly one entry, the record one carrying the pre-step iteration
index. -/
theorem solveStep_inv {α : Type _} [LinearOrderedCommRing α]
    (S : MetaModeSolver α) (d : Nat × List Nat) (S2 : MetaModeSolver α)
    (h : solveStep S d = .ok S2) :
    S2.iteration = S.iteration + 1
    ∧ ((S2.record = S.record ∧ S2.steps = S.steps)
       ∨ ∃ v g, S2.record = S.record ++ [(S.iteration, v)]
           ∧ S2.steps = S.steps ++ [g]) := by
  cases hs : solverStep S d.1 d.2 with
  | error e =>
      have herr : solveStep S d = .error e := by
        unfold solveStep
        rw [hs, error_bind]
      rw [herr] at h
      cases h
  | ok r =>
      obtain ⟨S1, acc⟩ := r
      cases acc with
      | false =>
          have heq := solveStep_reject S d S1 hs
          rw [heq] at h
          injection h with h'
          rw [← h']
          have hS1 : S1 = S :=
            (solverStep_mono S d.1 d.2 (S1, false) hs).2.1 rfl
          rw [hS1]
          exact ⟨rfl, Or.inl ⟨rfl, rfl⟩⟩
      | true =>
          cases hg : S1.problem.generate S1.best_solution with
          | error e =>
              have herr : solveStep S d = .error e := by
                unfold solveStep
                rw [hs, ok_bind]
                simp only []
                rw [if_pos trivial, hg]
                rfl
              rw [herr] at h
              cases h
          | ok g =>
              have heq := solveStep_accept S d S1 g hs hg
              rw [heq] at h
              injection h with h'
              rw [← h']
              obtain ⟨sol, v, _, _, hr⟩ := solverStep_ok S d.1 d.2 (S1, true) hs
              by_cases hlt : S.best_value < v
              · rw [if_pos hlt] at hr
                have h1 : S1 = { S with best_solution := sol, best_value := v } :=
                  congrArg Prod.fst hr
                rw [h1]
                exact ⟨rfl, Or.inr ⟨v, g, rfl, rfl⟩⟩
              · rw [if_neg hlt] at hr
                have hb : (true : Bool) = false := congrArg Prod.snd hr
                exact Bool.noConfusion hb

/-- Invariants carried by `solve` across a whole run: the counter grows
by the number of draws, and the histories stay aligned, with strictly
increasing recorded iteration indices all below the counter. -/
theorem solve_inv {α : Type _} [LinearOrderedCommRing α] :
    ∀ (draws : List (Nat × List Nat)) (S S2 : MetaModeSolver α),
      solve S draws = .ok S2 →
      S2.iteration = S.iteration + draws.length
      ∧ (S.record.length = S.steps.length →
         (S.record.map Prod.fst).Pairwise (· < ·) →
         (∀ x ∈ S.record.map Prod.fst, x < S.iteration) →
         S2.record.length = S2.steps.length
         ∧ (S2.record.map Prod.fst).Pairwise (· < ·)
         ∧ (∀ x ∈ S2.record.map Prod.fst, x < S2.iteration)) := by
  intro draws
  induction draws with
  | nil =>
      intro S S2 h
      unfold solve at h
      injection h with h'
      subst h'
      exact ⟨by simp, fun a b c => ⟨a, b, c⟩⟩
  | cons d ds ih =>
      intro S S2 h
      unfold solve at h
      cases hs : solveStep S d with
      | error e => rw [hs, error_bind] at h; cases h
      | ok S1 =>
          rw [hs, ok_bind] at h
          obtain ⟨hiter, hrec⟩ := solveStep_inv S d S1 hs
          obtain ⟨hiter2, hrest⟩ := ih S1 S2 h
          constructor
          · rw [hiter2, hiter, List.length_cons]
            omega
          · intro hlen hpair hbound
            apply hrest
            · rcases hrec with ⟨hr, hs'⟩ | ⟨v, g, hr, hs'⟩
              · rw [hr, hs']
                exact hlen
              · rw [hr, hs']
                simp [hlen]
            · rcases hrec with ⟨hr, _⟩ | ⟨v, g, hr, _⟩
              · rw [hr]
                exact hpair
              · rw [hr]
                rw [List.map_append, List.pairwise_append]
                refine ⟨hpair, by simp, ?_⟩
                intro x hx y hy
                simp only [List.map_cons, List.map_nil, List.mem_singleton] at hy
                subst hy
                exact hbound x hx
            · rcases hrec with ⟨hr, _⟩ | ⟨v, g, hr, _⟩
              · rw [hr, hiter]
                intro x hx
                exact Nat.lt_succ_of_lt (hbound x hx)
              · rw [hr, hiter]
                intro x hx
                rw [List.map_append] at hx
                rcases List.mem_append.mp hx with hx1 | hx2
                · exact Nat.lt_succ_of_lt (hbound x hx1)
                · simp only [List.map_cons, List.map_nil,
                    List.mem_singleton] at hx2
                  subst hx2
                  exact Nat.lt_succ_self _

/-- C6: each accepted step appends one `(iteration, best_value)` pair to
`record` and one generated stack to `steps`, a rejected step appends
nothing, and the iteration counter increments on every step; hence
after `solve(n_steps)` on a freshly constructed solver,
`len(record) = len(steps)`, the counter equals `n_steps` (the number of
draws), and the recorded iteration indices are strictly increasing. -/
theorem claim_C6_solve_bookkeeping {α : Type _} [LinearOrderedCommRing α] :
    (∀ (S : MetaModeSolver α) (d : Nat × List Nat) (S1 : MetaModeSolver α)
        (g : List (List (List α))),
      solverStep S d.1 d.2 = .ok (S1, true) →
      S1.problem.generate S1.best_solution = .ok g →
      solveStep S d = .ok { S1 with
          record := S1.record ++ [(S1.iteration, S1.best_value)],
          steps := S1.steps ++ [g],
          iteration := S1.iteration + 1 })
    ∧ (∀ (S : MetaModeSolver α) (d : Nat × List Nat) (S1 : MetaModeSolver α),
        solverStep S d.1 d.2 = .ok (S1, false) →
        solveStep S d = .ok { S1 with iteration := S1.iteration + 1 })
    ∧ (∀ (S : MetaModeSolver α) (draws : List (Nat × List Nat)),
        S.record = [] → S.steps = [] → S.iteration = 0 →
        ExceptSat (solve S draws) (fun S2 =>
          S2.record.length = S2.steps.length
          ∧ S2.iteration = draws.length
          ∧ (S2.record.map Prod.fst).Pairwise (· < ·))) := by
  refine ⟨solveStep_accept, solveStep_reject, ?_⟩
  intro S draws h1 h2 h3 S2 h
  obtain ⟨hiter, hrest⟩ := solve_inv draws S S2 h
  obtain ⟨ha, hb, _⟩ := hrest (by rw [h1, h2]; rfl) (by rw [h1]; constructor)
    (by rw [h1]; intro x hx; cases hx)
  refine ⟨ha, ?_, hb⟩
  rw [hiter, h3, Nat.zero_add]

/-- Witness for C6: a two-step concrete run over `ℤ` whose first step is
accepted and second rejected. -/
theorem claim_C6_witness :
    (solve
        (⟨⟨fun _ _ => (1 : ℤ), 2, 2, .SUM⟩,
          ⟨2, 2, [[0, 1], [0, 1]], some [[0, 1], [0, 1]]⟩, 0, 0, [], []⟩ :
          MetaModeSolver ℤ) [(0, [1, 0]), (1, [1, 0])]).isOk = true
    ∧ ExceptSat (solve
        (⟨⟨fun _ _ => (1 : ℤ), 2, 2, .SUM⟩,
          ⟨2, 2, [[0, 1], [0, 1]], some [[0, 1], [0, 1]]⟩, 0, 0, [], []⟩ :
          MetaModeSolver ℤ) [(0, [1, 0]), (1, [1, 0])])
        (fun S2 => S2.record.length = S2.steps.length
          ∧ S2.iteration = 2
          ∧ (S2.record.map Prod.fst).Pairwise (· < ·)) :=
  ⟨by decide,
   (claim_C6_solve_bookkeeping (α := ℤ)).2.2
     ⟨⟨fun _ _ => (1 : ℤ), 2, 2, .SUM⟩,
      ⟨2, 2, [[0, 1], [0, 1]], some [[0, 1], [0, 1]]⟩, 0, 0, [], []⟩
     [(0, [1, 0]), (1, [1, 0])] rfl rfl rfl⟩

/-! ### Store-based model of `MetaModeSolution` for aliasing claims

numpy arrays are mutable objects; the value model above cannot express
whether two solutions share an array.  Here a `Store` maps array ids to
contents, every numpy allocation (`np.tile`, `.copy()`, the assembled
result of a row assignment) takes a fresh id, and a solution holds ids
instead of tables. -/

/-- A heap of allocated integer tables. -/
structure Store where
  next : Nat
  mem : Nat → Table

/-- Allocate a fresh array holding `v`. -/
def Store.alloc (s : Store) (v : Table) : Nat × Store :=
  (s.next, ⟨s.next + 1, fun i => if i = s.next then v else s.mem i⟩)

/-- `MetaModeSolution` with array identity: the two table fields hold
ids into the store. -/
structure SolutionR where
  n_modes : Nat
  n_channels : Nat
  unpermuted : Nat
  permuted : Option Nat
  deriving DecidableEq, Repr

/-- Constructor: with no permutation argument, allocates the identity
tile; otherwise stores the passed array id itself (the source assigns
`self.unpermuted_modes = permutation` without copying).
`permuted_modes` starts unset. -/
def initR (n_modes n_channels : Nat) (permutation : Option Nat)
    (s : Store) : SolutionR × Store :=
  match permutation with
  | none =>
      let a := s.alloc (identityTable n_channels n_modes)
      (⟨n_modes, n_channels, a.1, none⟩, a.2)
  | some pid => (⟨n_modes, n_channels, pid, none⟩, s)

/-- `MetaModeSolution.copy` in the store model: allocates
`permuted_modes.copy()` and passes the fresh id to the constructor
(raising `AttributeError` when `permuted_modes` is unset). -/
def copyR (sol : SolutionR) (s : Store) :
    Except PyError (SolutionR × Store) :=
  match sol.permuted with
  | none => .error (.attributeError attrMsg)
  | some pid =>
      let a := s.alloc (s.mem pid)
      .ok (initR sol.n_modes sol.n_channels (some a.1) a.2)

/-- `permute_one_channel` in the store model: the copied baseline with
row `k` replaced is a freshly allocated array (`unpermuted_modes.copy()`
followed by the in-place row assignment touches only the fresh array);
`permuted_modes` is rebound to the fresh id. -/
def permuteOneChannelR (sol : SolutionR) (channel : Int)
    (newRow : List Nat) (s : Store) :
    Except PyError (SolutionR × Store) :=
  match npResolveIndex (s.mem sol.unpermuted).length channel with
  | some k =>
      let a := s.alloc ((s.mem sol.unpermuted).set k newRow)
      .ok ({ sol with permuted := some a.1 }, a.2)
  | none => .error (.indexError indexMsg)

/-- `MetaModeSolution.step` in the store model. -/
def stepR (sol : SolutionR) (channel : Nat) (newRow : List Nat)
    (s : Store) : Except PyError (SolutionR × Store) :=
  permuteOneChannelR sol (Int.ofNat channel) newRow s

/-- C4 counterexample: for a parent whose `permuted_modes` is array 1,
`copy()` returns a solution whose `permuted_modes` is unset (`None`),
not a deep copy of the parent's `permuted_modes` — the copied table
becomes the new baseline `unpermuted_modes` instead. -/
theorem claim_C4_counterexample :
    (copyR ⟨2, 2, 0, some 1⟩
        ⟨2, fun i => if i = 0 then [[0, 1], [0, 1]]
             else if i = 1 then [[1, 0], [0, 1]] else []⟩).map
        (fun p => (p.1.permuted, p.2.mem p.1.unpermuted))
      = .ok (none, [[1, 0], [0, 1]])
    ∧ (⟨2, 2, 0, some 1⟩ : SolutionR).permuted = some 1 := by
  exact ⟨rfl, rfl⟩

/-- C4 (amended): `copy()` returns a new solution whose
`unpermuted_modes` is a fresh array holding a deep copy of the parent's
current `permuted_modes`, and whose own `permuted_modes` is unset; the
fresh array aliases neither parent array, the copy leaves the parent's
arrays untouched, and subsequently mutating the copy via `step()` still
leaves both parent arrays unchanged. -/
theorem claim_C4_copy_independence (s : Store) (sol : SolutionR)
    (pid : Nat) (hp : sol.permuted = some pid)
    (hu : sol.unpermuted < s.next) (hpv : pid < s.next) :
    ExceptSat (copyR sol s) (fun p =>
      p.2.mem p.1.unpermuted = s.mem pid
      ∧ p.1.permuted = none
      ∧ p.1.n_modes = sol.n_modes ∧ p.1.n_channels = sol.n_channels
      ∧ p.1.unpermuted ≠ sol.unpermuted ∧ p.1.unpermuted ≠ pid
      ∧ p.2.mem sol.unpermuted = s.mem sol.unpermuted
      ∧ p.2.mem pid = s.mem pid
      ∧ (∀ (channel : Nat) (newRow : List Nat),
          ExceptSat (stepR p.1 channel newRow p.2) (fun q =>
            q.2.mem sol.unpermuted = s.mem sol.unpermuted
            ∧ q.2.mem pid = s.mem pid))) := by
  intro p hcp
  unfold copyR at hcp
  rw [hp] at hcp
  unfold Store.alloc initR at hcp
  injection hcp with hcp'
  have hp1 : p.1 = ⟨sol.n_modes, sol.n_channels, s.next, none⟩ := by
    rw [← hcp']
  have hp2 : p.2 = ⟨s.next + 1,
      fun i => if i = s.next then s.mem pid else s.mem i⟩ := by
    rw [← hcp']
  refine ⟨?_, ?_, ?_, ?_, ?_, ?_, ?_, ?_, ?_⟩
  · rw [hp1, hp2]
    simp only []
    rw [if_pos trivial]
  · rw [hp1]
  · rw [hp1]
  · rw [hp1]
  · rw [hp1]
    simp only []
    omega
  · rw [hp1]
    simp only []
    omega
  · rw [hp2]
    simp only []
    rw [if_neg (by omega)]
  · rw [hp2]
    simp only []
    rw [if_neg (by omega)]
  · intro channel newRow q hq
    rw [hp1, hp2] at hq
    unfold stepR permuteOneChannelR at hq
    simp only [] at hq
    rw [if_pos trivial] at hq
    cases hk : npResolveIndex (s.mem pid).length (Int.ofNat channel) with
    | none =>
        rw [hk] at hq
        cases hq
    | some k =>
        rw [hk] at hq
        unfold Store.alloc at hq
        injection hq with hq'
        have hq2 : q.2 = ⟨s.next + 2,
            fun i => if i = s.next + 1 then (s.mem pid).set k newRow
              else if i = s.next then s.mem pid else s.mem i⟩ := by
          rw [← hq']
        rw [hq2]
        simp only []
        constructor
        · rw [if_neg (by omega), if_neg (by omega)]
        · rw [if_neg (by omega), if_neg (by omega)]

/-- Witness for C4 at a concrete two-array store. -/
theorem claim_C4_witness :
    ((⟨2, 2, 0, some 1⟩ : SolutionR).permuted = some 1)
    ∧ (copyR ⟨2, 2, 0, some 1⟩
        ⟨2, fun i => if i = 0 then [[0, 1], [0, 1]]
             else if i = 1 then [[1, 0], [0, 1]] else []⟩).isOk = true
    ∧ ExceptSat (copyR ⟨2, 2, 0, some 1⟩
        ⟨2, fun i => if i = 0 then [[0, 1], [0, 1]]
             else if i = 1 then [[1, 0], [0, 1]] else []⟩)
        (fun p => p.2.mem p.1.unpermuted = [[1, 0], [0, 1]]
          ∧ p.1.permuted = none) := by
  refine ⟨rfl, by decide, ?_⟩
  intro p hp
  have h := claim_C4_copy_independence
      ⟨2, fun i => if i = 0 then [[0, 1], [0, 1]]
           else if i = 1 then [[1, 0], [0, 1]] else []⟩
      ⟨2, 2, 0, some 1⟩ 1 rfl (by decide) (by decide) p hp
  exact ⟨h.1.trans rfl, h.2.1⟩
